import Mathlib

/-!
Verification development for the FDML migration engine
(src/src/migration/runner.rs and the document model of src/src/parser/ast.rs).

Shallow embedding conventions:
* Rust `String` is Lean `String`; `Vec<T>` is `List T`; `Option<T>` is `Option T`.
* `HashMap<String, Migration>` is modelled as an association list
  `List (String × Migration)` whose list order stands for the map's
  (unspecified) iteration order; `get` is `List.lookup`, `keys()` is
  `List.map Prod.fst` in that order.
* `HashSet<String>` is modelled as a `List String` used with set semantics
  (insert only when absent, remove by filtering).
* `f64` is Lean `Float`; `serde_json::Value` numbers are stored directly as
  `Float` (the code's `as_f64().unwrap_or(0.0)` is the identity here).
* Fallible Rust functions returning `Result<T>` become `Except FdmlError T`.
* The recursive depth-first visitor carries an explicit fuel parameter; fuel
  exhaustion is the extra error `FdmlError.outOfFuel`, a modelling artifact
  that is proved unreachable for the fuel the resolver supplies.
* File-system state (migration directory, state file, target document file,
  backup directory) is modelled post-parse by the `FS` structure; `chrono`
  timestamps are passed in as an explicit `now : String` argument.
-/

set_option maxHeartbeats 1000000
set_option maxRecDepth 4000

namespace FDML

/-! ### Document model (src/src/parser/ast.rs) -/

/-- Embedding of `ast::Value` (`Object`'s `HashMap` as an association list). -/
inductive Value where
  | string (s : String)
  | number (n : Float)
  | boolean (b : Bool)
  | array (elems : List Value)
  | object (entries : List (String × Value))

/-- Embedding of `ast::FieldConstraint`. -/
structure FieldConstraint where
  constraint_type : String
  value : Option Value
  message : Option String

/-- Embedding of `ast::Field`. -/
structure Field where
  name : String
  field_type : String
  description : Option String
  required : Option Bool
  default : Option Value
  constraints : Option (List FieldConstraint)

/-- Embedding of `ast::EntityRelationship`. -/
structure EntityRelationship where
  entity : String
  rel_type : String
  description : Option String

/-- Embedding of `ast::Entity`. -/
structure Entity where
  id : String
  name : Option String
  description : Option String
  fields : List Field
  relationships : Option (List EntityRelationship)

/-- Embedding of `ast::ActionData`. -/
structure ActionData where
  entity : Option String
  fields : Option (List String)
  description : Option String

/-- Embedding of `ast::Action`. -/
structure Action where
  id : String
  name : Option String
  description : Option String
  input : Option ActionData
  output : Option ActionData
  side_effects : Option (List String)
  preconditions : Option (List String)
  postconditions : Option (List String)

/-- Embedding of `ast::Scenario`; the Rust fields `when`/`then` are Lean
keywords, so they are rendered `when_`/`then_`. -/
structure Scenario where
  id : String
  title : String
  description : Option String
  given : List String
  when_ : List String
  then_ : List String

/-- Embedding of `ast::Feature`. -/
structure Feature where
  id : String
  title : String
  description : Option String
  scenarios : List Scenario
  acceptance_criteria : Option (List String)
  dependencies : Option (List String)

/-- Embedding of `ast::Metadata`. -/
structure Metadata where
  version : String
  author : Option String
  description : Option String
  created : Option String
  updated : Option String

/-- Embedding of `ast::Relationship`. -/
structure Relationship where
  from_ : String
  to_ : String
  rel_type : String
  description : Option String

/-- Embedding of `ast::System`. -/
structure System where
  id : String
  name : String
  description : Option String
  components : List String
  relationships : List Relationship

/-- Embedding of `ast::FlowStep`. -/
structure FlowStep where
  id : String
  action : String
  description : Option String
  conditions : Option (List String)

/-- Embedding of `ast::Flow`. -/
structure Flow where
  id : String
  name : String
  description : Option String
  steps : List FlowStep

/-- Embedding of `ast::Constraint`. -/
structure Constraint where
  id : String
  name : String
  description : Option String
  constraint_type : String
  rule : String
  entities : Option (List String)
  actions : Option (List String)

/-- Embedding of `ast::Traceability`. -/
structure Traceability where
  from_ : String
  to_ : String
  relation : String
  description : Option String

/-- Embedding of `ast::GenerationRule`. -/
structure GenerationRule where
  id : String
  name : String
  description : Option String
  triggers : List String
  generates : List String
  template : Option String

/-- Embedding of `ast::FdmlDocument`. -/
structure FdmlDocument where
  metadata : Option Metadata
  system : Option System
  entities : List Entity
  actions : List Action
  features : List Feature
  flows : List Flow
  constraints : List Constraint
  traceability : List Traceability
  generation_rules : List GenerationRule

/-- Embedding of `impl Default for FdmlDocument`. -/
def FdmlDocument.defaultDoc : FdmlDocument :=
  { metadata := none, system := none, entities := [], actions := [],
    features := [], flows := [], constraints := [], traceability := [],
    generation_rules := [] }

/-! ### Error type (src/src/error.rs), restricted to the constructors the
migration engine produces, plus the fuel-exhaustion modelling artifact. -/

/-- Embedding of `FdmlError`. `outOfFuel` does not exist in the Rust enum: it
marks exhaustion of the explicit fuel that models the unbounded Rust
recursion of `visit_migration_deps`, and is proved unreachable for the fuel
supplied by `resolve_migration_dependencies`. -/
inductive FdmlError where
  | io (msg : String)
  | json (msg : String)
  | yaml (msg : String)
  | parser (line column : Nat) (message : String)
  | simpleParser (msg : String)
  | validation (msg : String)
  | project (msg : String)
  | generator (msg : String)
  | migration (msg : String)
  | outOfFuel
deriving DecidableEq

/-! ### Migration data model (src/src/migration/runner.rs lines 10-87) -/

/-- Embedding of `serde_json::Value` (numbers stored as `Float`). -/
inductive Json where
  | null
  | bool (b : Bool)
  | num (n : Float)
  | str (s : String)
  | arr (elems : List Json)
  | obj (entries : List (String × Json))

/-- Embedding of `EntityChanges`. -/
structure EntityChanges where
  name : Option String
  description : Option String
  add_fields : Option (List String)
  remove_fields : Option (List String)

/-- Embedding of `ActionChanges` (`HashMap<String, String>` as an association
list). -/
structure ActionChanges where
  name : Option String
  description : Option String
  input_changes : Option (List (String × String))
  output_changes : Option (List (String × String))

/-- Embedding of the `MigrationOperation` enum of runner.rs lines 20-63: its
closed set of variants, in source order. -/
inductive MigrationOperation where
  | addFeature (id title : String) (description : Option String)
      (scenarios : Option (List String))
  | removeFeature (id : String)
  | modifyEntity (id : String) (changes : EntityChanges)
  | addField (entity_id field_name field_type : String)
      (required : Option Bool) (default : Option Json)
  | removeField (entity_id field_name : String)
  | updateAction (id : String) (changes : ActionChanges)
  | changeValidation (target_id target_type : String)
      (validation_rules : List String)

/-- Embedding of `Migration`. -/
structure Migration where
  id : String
  title : Option String
  description : Option String
  up : List MigrationOperation
  down : List MigrationOperation
  dependencies : Option (List String)

/-- Embedding of `MigrationState`. -/
structure MigrationState where
  applied_migrations : List String
  last_migration : Option String
  created_at : String
  updated_at : String
deriving DecidableEq

/-- Embedding of `impl Default for MigrationState`; the `chrono::Utc::now()`
timestamp is the explicit `now` argument. -/
def MigrationState.defaultState (now : String) : MigrationState :=
  { applied_migrations := [], last_migration := none,
    created_at := now, updated_at := now }

/-! ### Helpers for in-place mutation of a list element

`document.entities.iter_mut().find(|e| p e)` followed by a mutation of the
found element is modelled by locating the first match together with its
context and rebuilding the list. -/

/-- Splits a list at the first element satisfying `p`: returns the elements
before it, the element, and the elements after it. -/
def findSplit (p : α → Bool) : List α → Option (List α × α × List α)
  | [] => none
  | x :: xs =>
    if p x then some ([], x, xs)
    else (findSplit p xs).map (fun pre_y_post =>
      (x :: pre_y_post.1, pre_y_post.2.1, pre_y_post.2.2))

/-- Embedding of the `serde_json::Value` to `ast::Value` conversion inside the
`AddField` arm (runner.rs lines 605-612); `Number` already stores the `f64`. -/
def jsonToValue (v : Json) : Value :=
  match v with
  | .str s => .string s
  | .num n => .number n
  | .bool b => .boolean b
  | _ => .string "null"

/-! ### Operation execution (runner.rs `execute_operation`, lines 542-695) -/

/-- Embedding of `execute_operation`. The Rust function mutates `document`
in place and returns `Result<()>`; here it returns the updated document. -/
def execute_operation (operation : MigrationOperation)
    (document : FdmlDocument) : Except FdmlError FdmlDocument :=
  match operation with
  | .addFeature id title description scenarios =>
    let scenarios := (scenarios.map (fun s =>
      s.enum.map (fun it =>
        ({ id := id ++ "_scenario_" ++ toString (it.1 + 1),
           title := it.2,
           description := none,
           given := ["System is ready"],
           when_ := ["User performs action"],
           then_ := ["Expected outcome occurs"] } : Scenario)))).getD []
    let feature : Feature :=
      { id := id, title := title, description := description,
        scenarios := scenarios, acceptance_criteria := none,
        dependencies := none }
    .ok { document with features := document.features ++ [feature] }
  | .removeFeature id =>
    .ok { document with features := document.features.filter (fun f => f.id != id) }
  | .modifyEntity id changes =>
    match findSplit (fun e => e.id == id) document.entities with
    | some (pre, entity, post) =>
      let entity := match changes.name with
        | some new_name => { entity with name := some new_name }
        | none => entity
      let entity := match changes.description with
        | some new_description => { entity with description := some new_description }
        | none => entity
      .ok { document with entities := pre ++ entity :: post }
    | none => .error (.migration ("Entity '" ++ id ++ "' not found"))
  | .addField entity_id field_name field_type required dflt =>
    match findSplit (fun e => e.id == entity_id) document.entities with
    | some (pre, entity, post) =>
      let field : Field :=
        { name := field_name, field_type := field_type,
          description := some "Field added by migration",
          required := required,
          default := dflt.map jsonToValue,
          constraints := none }
      .ok { document with
            entities := pre ++ { entity with fields := entity.fields ++ [field] } :: post }
    | none => .error (.migration ("Entity '" ++ entity_id ++ "' not found"))
  | .removeField entity_id field_name =>
    match findSplit (fun e => e.id == entity_id) document.entities with
    | some (pre, entity, post) =>
      let initial_count := entity.fields.length
      let fields := entity.fields.filter (fun f => f.name != field_name)
      if fields.length == initial_count then
        .error (.migration ("Field '" ++ field_name ++ "' not found in entity '"
          ++ entity_id ++ "'"))
      else
        .ok { document with entities := pre ++ { entity with fields := fields } :: post }
    | none => .error (.migration ("Entity '" ++ entity_id ++ "' not found"))
  | .updateAction id changes =>
    match findSplit (fun a => a.id == id) document.actions with
    | some (pre, action, post) =>
      let action := match changes.name with
        | some new_name => { action with name := some new_name }
        | none => action
      let action := match changes.description with
        | some new_description => { action with description := some new_description }
        | none => action
      .ok { document with actions := pre ++ action :: post }
    | none => .error (.migration ("Action '" ++ id ++ "' not found"))
  | .changeValidation target_id target_type _validation_rules =>
    match target_type with
    | "entity" =>
      match document.entities.find? (fun e => e.id == target_id) with
      | some _ => .ok document
      | none => .error (.migration ("Entity '" ++ target_id ++ "' not found"))
    | "action" =>
      match document.actions.find? (fun a => a.id == target_id) with
      | some _ => .ok document
      | none => .error (.migration ("Action '" ++ target_id ++ "' not found"))
    | _ => .error (.migration ("Unsupported target type for validation: " ++ target_type))

/-- Embedding of `validate_operation` (runner.rs lines 507-540). -/
def validate_operation (operation : MigrationOperation) : Except FdmlError Unit :=
  match operation with
  | .addFeature id title _ _ =>
    if id.trim.isEmpty || title.trim.isEmpty then
      .error (.migration "AddFeature operation requires non-empty id and title")
    else .ok ()
  | .removeFeature id =>
    if id.trim.isEmpty then
      .error (.migration "RemoveFeature operation requires non-empty id")
    else .ok ()
  | .addField entity_id field_name field_type _ _ =>
    if entity_id.trim.isEmpty || field_name.trim.isEmpty || field_type.trim.isEmpty then
      .error (.migration "AddField operation requires non-empty entity_id, field_name, and field_type")
    else .ok ()
  | .removeField entity_id field_name =>
    if entity_id.trim.isEmpty || field_name.trim.isEmpty then
      .error (.migration "RemoveField operation requires non-empty entity_id and field_name")
    else .ok ()
  | _ => .ok ()

/-! ### Dependency resolution (runner.rs lines 354-433)

`visit_migration_deps` threads the three mutable collections of the Rust
function (`resolved`, `visited`, `visiting`) as one state value. -/

/-- The `(resolved, visited, visiting)` state threaded through the visitor:
the post-order resolution list, the set of completed ids, and the set of ids
on the current recursion stack. -/
structure DfsState where
  resolved : List String
  visited : List String
  visiting : List String
deriving DecidableEq

/-- Embedding of `visit_migration_deps` (runner.rs lines 397-433). The `for`
loop over `migration.dependencies` is the `foldlM`; `fuel` bounds the
recursion depth of the Rust function and only decreases at recursive calls. -/
def visit_migration_deps : Nat → String → List (String × Migration) → DfsState →
    Except FdmlError DfsState
  | 0, _, _, _ => .error .outOfFuel
  | fuel + 1, migration_id, migrations, s =>
    if migration_id ∈ s.visited then .ok s
    else if migration_id ∈ s.visiting then
      .error (.migration ("Circular dependency detected involving migration '"
        ++ migration_id ++ "'"))
    else
      let s1 : DfsState := { s with visiting := migration_id :: s.visiting }
      match (match migrations.lookup migration_id with
        | some migration =>
          (migration.dependencies.getD []).foldlM
            (fun s2 dep_id => visit_migration_deps fuel dep_id migrations s2) s1
        | none => .ok s1) with
      | .error e => .error e
      | .ok s3 =>
        .ok { resolved :=
                if migration_id ∈ s3.resolved then s3.resolved
                else s3.resolved ++ [migration_id],
              visited :=
                if migration_id ∈ s3.visited then s3.visited
                else migration_id :: s3.visited,
              visiting := s3.visiting.filter (fun y => y != migration_id) }

/-- The loop of `resolve_migration_dependencies` over a list of ids, each
visited with the same fuel. -/
def visit_list (fuel : Nat) (ids : List String)
    (migrations : List (String × Migration)) (s : DfsState) :
    Except FdmlError DfsState :=
  ids.foldlM (fun s1 migration_id => visit_migration_deps fuel migration_id migrations s1) s

/-- Embedding of `resolve_migration_dependencies` (runner.rs lines 372-394):
visit every pending id, then keep only pending ids of the resolution list.
The fuel `migrations.length + 1` strictly exceeds the number of keys, which
is proved sufficient below. -/
def resolve_migration_dependencies (pending_migrations : List String)
    (migrations : List (String × Migration)) : Except FdmlError (List String) :=
  match visit_list (migrations.length + 1) pending_migrations migrations
      ⟨[], [], []⟩ with
  | .error e => .error e
  | .ok s =>
    .ok (s.resolved.filter (fun id => pending_migrations.contains id))

/-- Embedding of `get_pending_migrations` (runner.rs lines 355-369): the keys
of the map in iteration order, filtered by the applied list, then resolved. -/
def get_pending_migrations (migrations : List (String × Migration))
    (state : MigrationState) : Except FdmlError (List String) :=
  let all_migration_ids := migrations.map Prod.fst
  let pending := all_migration_ids.filter
    (fun id => !(state.applied_migrations.contains id))
  resolve_migration_dependencies pending migrations

/-! ### The dependency graph induced by a loaded-migrations map -/

/-- The dependency ids of `id` in the map, as read by the visitor: the
`dependencies` list when `id` maps to a migration, `[]` otherwise. -/
def depsOf (migrations : List (String × Migration)) (id : String) : List String :=
  match migrations.lookup id with
  | some migration => migration.dependencies.getD []
  | none => []

/-- The dependency edge relation: `a` depends on `b`. -/
def depEdge (migrations : List (String × Migration)) (a b : String) : Prop :=
  b ∈ depsOf migrations a

/-- Acyclicity of the dependency graph: no id reaches itself through one or
more dependency edges. -/
def Acyclic (migrations : List (String × Migration)) : Prop :=
  ∀ id, ¬ Relation.TransGen (depEdge migrations) id id

/-! ### State store and file-system level runner operations

The file system is modelled post-parse: the migration directory's parsed
files, the parsed state file (if present), the parsed target document file
(if present; the runner is modelled with a target file configured via
`with_target_file`, the configuration every mutating CLI entry point uses),
and the backup directory contents. -/

/-- Post-parse model of the file-system state owned by a `MigrationRunner`. -/
structure FS where
  migration_files : List Migration
  state_file : Option MigrationState
  target_file : Option FdmlDocument
  backups : List (String × FdmlDocument)

/-- One `HashMap::insert`: replace the value when the key is present,
otherwise add the binding. -/
def insertKeyed (m : List (String × Migration)) (k : String) (v : Migration) :
    List (String × Migration) :=
  if m.any (fun kv => kv.1 == k) then
    m.map (fun kv => if kv.1 == k then (k, v) else kv)
  else m ++ [(k, v)]

/-- Embedding of `load_migrations` (runner.rs lines 314-338): each parsed
file is inserted into the map keyed by its migration id (a later file with
the same id replaces the earlier one). -/
def load_migrations (fs : FS) : List (String × Migration) :=
  fs.migration_files.foldl (fun acc migration => insertKeyed acc migration.id migration) []

/-- Embedding of `load_state` combined with the `.unwrap_or_default()` at its
call sites (runner.rs lines 340-352): a missing state file yields the default
state. -/
def load_state (now : String) (fs : FS) : MigrationState :=
  fs.state_file.getD (MigrationState.defaultState now)

/-- Embedding of `create_backup` (runner.rs lines 116-131): when the target
file exists it is copied verbatim into the backup directory under a
timestamped name. -/
def create_backup (now : String) (fs : FS) : Option String × FS :=
  match fs.target_file with
  | some doc =>
    let backup_filename := "backup_" ++ now ++ ".fdml"
    (some backup_filename, { fs with backups := fs.backups ++ [(backup_filename, doc)] })
  | none => (none, fs)

/-- Embedding of `load_target_document` (runner.rs lines 450-461): a missing
target file yields the default document. -/
def load_target_document (fs : FS) : FdmlDocument :=
  fs.target_file.getD FdmlDocument.defaultDoc

/-- Embedding of `save_target_document` (runner.rs lines 464-471). -/
def save_target_document (document : FdmlDocument) (fs : FS) : FS :=
  { fs with target_file := some document }

/-- The validation loop of `verify_rollback_safety` over one migration's
`down` operations. -/
def validate_ops (ops : List MigrationOperation) : Except FdmlError Unit :=
  match ops with
  | [] => .ok ()
  | op :: rest =>
    match validate_operation op with
    | .error e => .error e
    | .ok _ => validate_ops rest

/-- Embedding of `verify_rollback_safety` (runner.rs lines 134-160), with the
already-loaded migration map passed in. -/
def verify_rollback_safety (migration_map : List (String × Migration))
    (migrations : List String) : Except FdmlError Unit :=
  match migrations with
  | [] => .ok ()
  | migration_id :: rest =>
    match migration_map.lookup migration_id with
    | some migration =>
      if migration.down.isEmpty then
        .error (.migration ("Migration '" ++ migration_id
          ++ "' has no down operations - rollback not possible"))
      else
        match validate_ops migration.down with
        | .error e => .error e
        | .ok _ => verify_rollback_safety migration_map rest
    | none => .error (.migration ("Migration '" ++ migration_id ++ "' not found"))

/-- The operation loop shared by `apply_migration` and `rollback_migration`. -/
def execute_ops (ops : List MigrationOperation) (document : FdmlDocument) :
    Except FdmlError FdmlDocument :=
  match ops with
  | [] => .ok document
  | op :: rest =>
    match execute_operation op document with
    | .error e => .error e
    | .ok document1 => execute_ops rest document1

/-- Embedding of `rollback_migration` (runner.rs lines 442-447): the `down`
operations are executed in reverse order. -/
def rollback_migration (migration : Migration) (document : FdmlDocument) :
    Except FdmlError FdmlDocument :=
  execute_ops migration.down.reverse document

/-- The rollback loop of `rollback_migrations` (runner.rs lines 274-283):
ids missing from the map are silently skipped. -/
def rollback_loop (migrations : List (String × Migration)) (ids : List String)
    (document : FdmlDocument) (rolled_back : List String) :
    Except FdmlError (FdmlDocument × List String) :=
  match ids with
  | [] => .ok (document, rolled_back)
  | migration_id :: rest =>
    match migrations.lookup migration_id with
    | some migration =>
      match rollback_migration migration document with
      | .error e => .error e
      | .ok document1 => rollback_loop migrations rest document1 (rolled_back ++ [migration_id])
    | none => rollback_loop migrations rest document rolled_back

/-- Embedding of `update_state` (runner.rs lines 697-713): append each id not
already present, then set `last_migration` from the tail of the *argument*
and refresh the update timestamp. -/
def update_state (now : String) (applied : List String) (fs : FS) : FS :=
  let state := load_state now fs
  let applied_migrations := applied.foldl
    (fun acc migration_id =>
      if acc.contains migration_id then acc else acc ++ [migration_id])
    state.applied_migrations
  let state1 := { state with applied_migrations := applied_migrations,
                             last_migration := applied.getLast?,
                             updated_at := now }
  { fs with state_file := some state1 }

/-- Embedding of `remove_from_state` (runner.rs lines 715-729): remove each
rolled-back id by value, then recompute `last_migration` from the tail of the
resulting applied list and refresh the update timestamp. -/
def remove_from_state (now : String) (rolled_back : List String) (fs : FS) : FS :=
  let state := load_state now fs
  let applied_migrations := rolled_back.foldl
    (fun acc migration_id => acc.filter (fun id => id != migration_id))
    state.applied_migrations
  let state1 := { state with applied_migrations := applied_migrations,
                             last_migration := applied_migrations.getLast?,
                             updated_at := now }
  { fs with state_file := some state1 }

/-- Embedding of `rollback_migrations` (runner.rs lines 226-296), threading
the file-system state explicitly so that side effects performed before a
failure (such as an already-written backup) are observable. -/
def rollback_migrations (now : String) (count : Nat) (dry_run : Bool) (fs : FS) :
    Except FdmlError (List String) × FS :=
  let migrations := load_migrations fs
  let state := load_state now fs
  let to_rollback := state.applied_migrations.reverse.take count
  if to_rollback.isEmpty then (.ok [], fs)
  else
    match verify_rollback_safety migrations to_rollback with
    | .error e => (.error e, fs)
    | .ok _ =>
      if dry_run then (.ok to_rollback, fs)
      else
        let backup := create_backup now fs
        let fs1 := backup.2
        let document := load_target_document fs1
        match rollback_loop migrations to_rollback document [] with
        | .error e => (.error e, fs1)
        | .ok (document1, rolled_back) =>
          if rolled_back.isEmpty then (.ok rolled_back, fs1)
          else
            let fs2 := save_target_document document1 fs1
            let fs3 := remove_from_state now rolled_back fs2
            (.ok rolled_back, fs3)

/-! ### Basic lemmas about the visitor -/

/-- The circular-dependency error raised by `visit_migration_deps`. -/
def cycle_error (id : String) : FdmlError :=
  .migration ("Circular dependency detected involving migration '" ++ id ++ "'")

/-- Completion step of one visit: mark resolved and visited, pop `visiting`. -/
def completeState (migration_id : String) (s3 : DfsState) : DfsState :=
  { resolved :=
      if migration_id ∈ s3.resolved then s3.resolved
      else s3.resolved ++ [migration_id],
    visited :=
      if migration_id ∈ s3.visited then s3.visited
      else migration_id :: s3.visited,
    visiting := s3.visiting.filter (fun y => y != migration_id) }

theorem visit_list_nil (fuel : Nat) (migrations : List (String × Migration))
    (s : DfsState) : visit_list fuel [] migrations s = .ok s := rfl

theorem visit_list_cons (fuel : Nat) (id : String) (ids : List String)
    (migrations : List (String × Migration)) (s : DfsState) :
    visit_list fuel (id :: ids) migrations s =
      match visit_migration_deps fuel id migrations s with
      | .error e => .error e
      | .ok s1 => visit_list fuel ids migrations s1 := by
  show List.foldlM _ _ _ = _
  rw [List.foldlM_cons]
  cases visit_migration_deps fuel id migrations s <;> rfl

theorem visit_zero (id : String) (migrations : List (String × Migration))
    (s : DfsState) : visit_migration_deps 0 id migrations s = .error .outOfFuel := rfl

/-- Unfolding of one visit at positive fuel: the lookup match collapses to
`depsOf` (a missing id has no dependencies to walk) and the dependency loop
is `visit_list` at one less fuel. -/
theorem visit_succ (fuel : Nat) (id : String)
    (migrations : List (String × Migration)) (s : DfsState) :
    visit_migration_deps (fuel + 1) id migrations s =
      if id ∈ s.visited then .ok s
      else if id ∈ s.visiting then .error (cycle_error id)
      else
        match visit_list fuel (depsOf migrations id) migrations
            { s with visiting := id :: s.visiting } with
        | .error e => .error e
        | .ok s3 => .ok (completeState id s3) := by
  show (if id ∈ s.visited then _ else _) = _
  by_cases h1 : id ∈ s.visited
  · simp [h1]
  by_cases h2 : id ∈ s.visiting
  · simp [h1, h2, cycle_error]
  simp only [if_neg h1, if_neg h2]
  unfold depsOf
  cases hl : migrations.lookup id with
  | none =>
    simp only [hl]
    rfl
  | some migration =>
    simp only [hl]
    rfl

theorem filter_bne_of_not_mem (l : List String) (a : String) (h : a ∉ l) :
    l.filter (fun y => y != a) = l := by
  apply List.filter_eq_self.mpr
  intro b hb
  simp only [bne_iff_ne, ne_eq, decide_eq_true_eq]
  rintro rfl
  exact h hb

/-! ### Invariants of a successful visit -/

/-- Well-formedness of the `(resolved, visited)` pair maintained by the
visitor: the resolution list has no duplicates, it carries exactly the
visited ids, and every resolved id appears after all of its dependencies. -/
def GoodState (migrations : List (String × Migration)) (r v : List String) : Prop :=
  r.Nodup ∧ (∀ x, x ∈ r ↔ x ∈ v) ∧
  (∀ x ∈ r, ∀ d ∈ depsOf migrations x, ∃ l₁ l₂, r = l₁ ++ x :: l₂ ∧ d ∈ l₁)

/-- What a successful visitor call guarantees about its output state:
`visiting` is restored, `resolved` only grows at the end, `visited` only
grows, ids newly marked visited were not on the entry recursion stack, and
well-formedness is preserved. -/
def VisitInv (migrations : List (String × Migration)) (s s' : DfsState) : Prop :=
  s'.visiting = s.visiting ∧
  (∃ t, s'.resolved = s.resolved ++ t) ∧
  (∀ y ∈ s.visited, y ∈ s'.visited) ∧
  (∀ y ∈ s'.visited, y ∈ s.visited ∨ y ∉ s.visiting) ∧
  (GoodState migrations s.resolved s.visited →
    GoodState migrations s'.resolved s'.visited)

theorem visitInv_refl (migrations : List (String × Migration)) (s : DfsState) :
    VisitInv migrations s s :=
  ⟨rfl, ⟨[], (List.append_nil _).symm⟩, fun _ h => h, fun _ h => .inl h, fun h => h⟩

theorem visitInv_trans {migrations : List (String × Migration)}
    {s s1 s2 : DfsState} (h1 : VisitInv migrations s s1)
    (h2 : VisitInv migrations s1 s2) : VisitInv migrations s s2 := by
  obtain ⟨ha1, ⟨t1, hb1⟩, hc1, hd1, he1⟩ := h1
  obtain ⟨ha2, ⟨t2, hb2⟩, hc2, hd2, he2⟩ := h2
  refine ⟨ha2.trans ha1, ⟨t1 ++ t2, by rw [hb2, hb1, List.append_assoc]⟩,
    fun y hy => hc2 y (hc1 y hy), ?_, fun h => he2 (he1 h)⟩
  intro y hy
  rcases hd2 y hy with hy1 | hy1
  · exact hd1 y hy1
  · rw [ha1] at hy1
    exact .inr hy1

/-- Main invariant of the visitor: every successful call satisfies
`VisitInv`, and the id (respectively every id of the list) ends up visited. -/
theorem dfs_ok_inv (fuel : Nat) :
    (∀ (id : String) (migrations : List (String × Migration)) (s s' : DfsState),
      visit_migration_deps fuel id migrations s = .ok s' →
      VisitInv migrations s s' ∧ id ∈ s'.visited) ∧
    (∀ (ids : List String) (migrations : List (String × Migration)) (s s' : DfsState),
      visit_list fuel ids migrations s = .ok s' →
      VisitInv migrations s s' ∧ ∀ i ∈ ids, i ∈ s'.visited) := by
  induction fuel with
  | zero =>
    constructor
    · intro id migrations s s' h
      rw [visit_zero] at h
      exact absurd h (by simp)
    · intro ids migrations
      induction ids with
      | nil =>
        intro s s' h
        rw [visit_list_nil] at h
        cases h
        exact ⟨visitInv_refl _ _, by simp⟩
      | cons id rest ihl =>
        intro s s' h
        rw [visit_list_cons, visit_zero] at h
        exact absurd h (by simp)
  | succ fuel ih =>
    have hvisit : ∀ (id : String) (migrations : List (String × Migration))
        (s s' : DfsState),
        visit_migration_deps (fuel + 1) id migrations s = .ok s' →
        VisitInv migrations s s' ∧ id ∈ s'.visited := by
      intro id migrations s s' h
      rw [visit_succ] at h
      by_cases h1 : id ∈ s.visited
      · rw [if_pos h1] at h
        cases h
        exact ⟨visitInv_refl _ _, h1⟩
      rw [if_neg h1] at h
      by_cases h2 : id ∈ s.visiting
      · rw [if_pos h2] at h
        exact absurd h (by simp)
      rw [if_neg h2] at h
      cases hloop : visit_list fuel (depsOf migrations id) migrations
          { s with visiting := id :: s.visiting } with
      | error e =>
        rw [hloop] at h
        exact absurd h (by simp)
      | ok s3 =>
        rw [hloop] at h
        cases h
        obtain ⟨⟨ha, ⟨t, hb⟩, hc, hd, he⟩, hdeps⟩ := (ih.2) _ _ _ _ hloop
        have hid3 : id ∉ s3.visited := by
          intro hmem
          rcases hd id hmem with hx | hx
          · exact h1 hx
          · exact hx (by simp)
        have hvisiting : (completeState id s3).visiting = s.visiting := by
          simp only [completeState]
          rw [ha]
          rw [List.filter_cons]
          simp only [bne_self_eq_false]
          exact filter_bne_of_not_mem _ _ h2
        have hvisited : (completeState id s3).visited = id :: s3.visited := by
          simp only [completeState, if_neg hid3]
        constructor
        · refine ⟨hvisiting, ?_, ?_, ?_, ?_⟩
          · simp only [completeState]
            by_cases hr : id ∈ s3.resolved
            · exact ⟨t, by rw [if_pos hr]; exact hb⟩
            · exact ⟨t ++ [id], by rw [if_neg hr, hb, List.append_assoc]⟩
          · intro y hy
            rw [hvisited]
            exact List.mem_cons_of_mem _ (hc y hy)
          · intro y hy
            rw [hvisited] at hy
            rcases List.mem_cons.mp hy with rfl | hy1
            · exact .inr h2
            · rcases hd y hy1 with hx | hx
              · exact .inl hx
              · exact .inr (fun hmem => hx (List.mem_cons_of_mem _ hmem))
          · intro hgs
            obtain ⟨hnd3, hiff3, hord3⟩ := he hgs
            have hidr : id ∉ s3.resolved := fun hmem => hid3 ((hiff3 id).mp hmem)
            have hres : (completeState id s3).resolved = s3.resolved ++ [id] := by
              simp only [completeState, if_neg hidr]
            rw [hres, hvisited]
            refine ⟨?_, ?_, ?_⟩
            · refine List.Nodup.append hnd3 (by simp) ?_
              intro a hmem1 hmem2
              simp only [List.mem_singleton] at hmem2
              subst hmem2
              exact hidr hmem1
            · intro x
              simp only [List.mem_append, List.mem_singleton, List.mem_cons]
              rw [hiff3 x]
              tauto
            · intro x hx d hdep
              rcases List.mem_append.mp hx with hx1 | hx1
              · obtain ⟨l₁, l₂, hsplit, hdl⟩ := hord3 x hx1 d hdep
                exact ⟨l₁, l₂ ++ [id], by rw [hsplit]; simp, hdl⟩
              · rcases List.mem_singleton.mp hx1 with rfl
                refine ⟨s3.resolved, [], rfl, ?_⟩
                exact (hiff3 d).mpr (hdeps d hdep)
        · rw [hvisited]
          exact List.mem_cons_self _ _
    refine ⟨hvisit, ?_⟩
    intro ids migrations
    induction ids with
    | nil =>
      intro s s' h
      rw [visit_list_nil] at h
      cases h
      exact ⟨visitInv_refl _ _, by simp⟩
    | cons id rest ihl =>
      intro s s' h
      rw [visit_list_cons] at h
      cases hv : visit_migration_deps (fuel + 1) id migrations s with
      | error e =>
        rw [hv] at h
        exact absurd h (by simp)
      | ok s1 =>
        rw [hv] at h
        obtain ⟨hinv1, hid1⟩ := hvisit _ _ _ _ hv
        obtain ⟨hinv2, hrest⟩ := ihl _ _ h
        refine ⟨visitInv_trans hinv1 hinv2, ?_⟩
        intro i hi
        rcases List.mem_cons.mp hi with rfl | hi1
        · exact hinv2.2.2.1 _ hid1
        · exact hrest _ hi1

/-! ### Fuel sufficiency: the number of map keys not yet on the recursion
stack bounds the remaining recursion depth -/

/-- The fuel measure: how many keys of the map are not on the current
recursion stack. -/
def keysNotVisiting (migrations : List (String × Migration))
    (visiting : List String) : Nat :=
  ((migrations.map Prod.fst).filter (fun k => decide (k ∉ visiting))).length

theorem lookup_mem_keys {migrations : List (String × Migration)} {id : String}
    {m : Migration} (h : migrations.lookup id = some m) :
    id ∈ migrations.map Prod.fst := by
  induction migrations with
  | nil => simp [List.lookup] at h
  | cons kv rest ihm =>
    rw [List.lookup] at h
    cases hbeq : (id == kv.1) with
    | true =>
      simp only [List.map_cons, List.mem_cons]
      exact .inl (eq_of_beq hbeq)
    | false =>
      rw [hbeq] at h
      exact List.mem_cons_of_mem _ (ihm h)

theorem keysNotVisiting_lt {migrations : List (String × Migration)}
    {visiting : List String} {id : String}
    (hid : id ∈ migrations.map Prod.fst) (hvis : id ∉ visiting) :
    keysNotVisiting migrations (id :: visiting) < keysNotVisiting migrations visiting := by
  unfold keysNotVisiting
  have hcong : (migrations.map Prod.fst).filter (fun k => decide (k ∉ id :: visiting)) =
      ((migrations.map Prod.fst).filter (fun k => decide (k ∉ visiting))).filter
        (fun k => decide (k ≠ id)) := by
    rw [List.filter_filter]
    apply List.filter_congr
    intro x _
    simp only [List.mem_cons, decide_not, Bool.not_and, Bool.not_or, decide_eq_true_eq,
      Bool.and_comm]
    by_cases h1 : x = id <;> by_cases h2 : x ∈ visiting <;> simp [h1, h2]
  rw [hcong]
  rw [List.length_filter_lt_length_iff_exists]
  refine ⟨id, List.mem_filter.mpr ⟨hid, by simpa using hvis⟩, by simp⟩

/-- With fuel exceeding the measure, a visit over an acyclic graph whose
recursion stack consists of ancestors of the visited id always succeeds and
restores the stack. -/
theorem dfs_succeeds (fuel : Nat) :
    (∀ (id : String) (migrations : List (String × Migration)) (s : DfsState),
      Acyclic migrations →
      (∀ x ∈ s.visiting, Relation.TransGen (depEdge migrations) x id) →
      keysNotVisiting migrations s.visiting < fuel →
      ∃ s', visit_migration_deps fuel id migrations s = .ok s' ∧
        s'.visiting = s.visiting) ∧
    (∀ (ids : List String) (migrations : List (String × Migration)) (s : DfsState),
      Acyclic migrations →
      (∀ i ∈ ids, ∀ x ∈ s.visiting, Relation.TransGen (depEdge migrations) x i) →
      keysNotVisiting migrations s.visiting < fuel →
      ∃ s', visit_list fuel ids migrations s = .ok s' ∧
        s'.visiting = s.visiting) := by
  induction fuel with
  | zero =>
    exact ⟨fun id migrations s _ _ hm => absurd hm (by omega),
      fun ids migrations s _ _ hm => absurd hm (by omega)⟩
  | succ fuel ih =>
    have hvisit : ∀ (id : String) (migrations : List (String × Migration)) (s : DfsState),
        Acyclic migrations →
        (∀ x ∈ s.visiting, Relation.TransGen (depEdge migrations) x id) →
        keysNotVisiting migrations s.visiting < fuel + 1 →
        ∃ s', visit_migration_deps (fuel + 1) id migrations s = .ok s' ∧
          s'.visiting = s.visiting := by
      intro id migrations s hacyc hanc hm
      rw [visit_succ]
      by_cases h1 : id ∈ s.visited
      · exact ⟨s, by rw [if_pos h1], rfl⟩
      rw [if_neg h1]
      by_cases h2 : id ∈ s.visiting
      · exact absurd (hanc id h2) (hacyc id)
      rw [if_neg h2]
      have hvisiting_out : ∀ s3 : DfsState, s3.visiting = id :: s.visiting →
          (completeState id s3).visiting = s.visiting := by
        intro s3 h3
        simp only [completeState]
        rw [h3, List.filter_cons]
        simp only [bne_self_eq_false]
        exact filter_bne_of_not_mem _ _ h2
      cases hlk : migrations.lookup id with
      | none =>
        have hdeps : depsOf migrations id = [] := by simp [depsOf, hlk]
        rw [hdeps, visit_list_nil]
        exact ⟨completeState id { s with visiting := id :: s.visiting },
          rfl, hvisiting_out _ rfl⟩
      | some migration =>
        have hkey : id ∈ migrations.map Prod.fst := lookup_mem_keys hlk
        have hmlt : keysNotVisiting migrations (id :: s.visiting) < fuel := by
          have := keysNotVisiting_lt hkey h2
          omega
        have hanc1 : ∀ d ∈ depsOf migrations id,
            ∀ x ∈ ({ s with visiting := id :: s.visiting } : DfsState).visiting,
            Relation.TransGen (depEdge migrations) x d := by
          intro d hd x hx
          rcases List.mem_cons.mp hx with rfl | hx1
          · exact Relation.TransGen.single hd
          · exact Relation.TransGen.tail (hanc x hx1) hd
        obtain ⟨s3, hs3, hs3v⟩ := ih.2 (depsOf migrations id) migrations
          { s with visiting := id :: s.visiting } hacyc hanc1 hmlt
        rw [hs3]
        exact ⟨completeState id s3, rfl, hvisiting_out _ hs3v⟩
    refine ⟨hvisit, ?_⟩
    intro ids migrations
    induction ids with
    | nil =>
      intro s _ _ _
      exact ⟨s, visit_list_nil _ _ _, rfl⟩
    | cons id rest ihl =>
      intro s hacyc hanc hm
      obtain ⟨s1, hs1, hs1v⟩ := hvisit id migrations s hacyc
        (hanc id (by simp)) hm
      obtain ⟨s', hs', hs'v⟩ := ihl s1 hacyc
        (by intro i hi x hx
            rw [hs1v] at hx
            exact hanc i (List.mem_cons_of_mem _ hi) x hx)
        (by rw [hs1v]; exact hm)
      refine ⟨s', ?_, hs'v.trans hs1v⟩
      rw [visit_list_cons, hs1]
      exact hs'

/-- When a sufficiently fuelled visit fails, the failure is a cycle error
naming an id that lies on a dependency cycle. -/
theorem dfs_error_shape (fuel : Nat) :
    (∀ (id : String) (migrations : List (String × Migration)) (s : DfsState)
      (e : FdmlError),
      keysNotVisiting migrations s.visiting < fuel →
      (∀ x ∈ s.visiting, Relation.TransGen (depEdge migrations) x id) →
      visit_migration_deps fuel id migrations s = .error e →
      ∃ x, e = cycle_error x ∧ Relation.TransGen (depEdge migrations) x x) ∧
    (∀ (ids : List String) (migrations : List (String × Migration)) (s : DfsState)
      (e : FdmlError),
      keysNotVisiting migrations s.visiting < fuel →
      (∀ i ∈ ids, ∀ x ∈ s.visiting, Relation.TransGen (depEdge migrations) x i) →
      visit_list fuel ids migrations s = .error e →
      ∃ x, e = cycle_error x ∧ Relation.TransGen (depEdge migrations) x x) := by
  induction fuel with
  | zero =>
    exact ⟨fun id migrations s e hm => absurd hm (by omega),
      fun ids migrations s e hm => absurd hm (by omega)⟩
  | succ fuel ih =>
    have hvisit : ∀ (id : String) (migrations : List (String × Migration)) (s : DfsState)
        (e : FdmlError),
        keysNotVisiting migrations s.visiting < fuel + 1 →
        (∀ x ∈ s.visiting, Relation.TransGen (depEdge migrations) x id) →
        visit_migration_deps (fuel + 1) id migrations s = .error e →
        ∃ x, e = cycle_error x ∧ Relation.TransGen (depEdge migrations) x x := by
      intro id migrations s e hm hanc h
      rw [visit_succ] at h
      by_cases h1 : id ∈ s.visited
      · rw [if_pos h1] at h
        exact absurd h (by simp)
      rw [if_neg h1] at h
      by_cases h2 : id ∈ s.visiting
      · rw [if_pos h2] at h
        simp only [Except.error.injEq] at h
        exact ⟨id, h.symm, hanc id h2⟩
      rw [if_neg h2] at h
      cases hlk : migrations.lookup id with
      | none =>
        have hdeps : depsOf migrations id = [] := by simp [depsOf, hlk]
        rw [hdeps, visit_list_nil] at h
        exact absurd h (by simp)
      | some migration =>
        have hkey : id ∈ migrations.map Prod.fst := lookup_mem_keys hlk
        have hmlt : keysNotVisiting migrations (id :: s.visiting) < fuel := by
          have := keysNotVisiting_lt hkey h2
          omega
        have hanc1 : ∀ d ∈ depsOf migrations id,
            ∀ x ∈ ({ s with visiting := id :: s.visiting } : DfsState).visiting,
            Relation.TransGen (depEdge migrations) x d := by
          intro d hd x hx
          rcases List.mem_cons.mp hx with rfl | hx1
          · exact Relation.TransGen.single hd
          · exact Relation.TransGen.tail (hanc x hx1) hd
        cases hloop : visit_list fuel (depsOf migrations id) migrations
            { s with visiting := id :: s.visiting } with
        | error e1 =>
          rw [hloop] at h
          simp only [Except.error.injEq] at h
          subst h
          exact ih.2 _ _ _ _ hmlt hanc1 hloop
        | ok s3 =>
          rw [hloop] at h
          exact absurd h (by simp)
    refine ⟨hvisit, ?_⟩
    intro ids migrations
    induction ids with
    | nil =>
      intro s e _ _ h
      rw [visit_list_nil] at h
      exact absurd h (by simp)
    | cons id rest ihl =>
      intro s e hm hanc h
      rw [visit_list_cons] at h
      cases hv : visit_migration_deps (fuel + 1) id migrations s with
      | error e1 =>
        rw [hv] at h
        simp only [Except.error.injEq] at h
        subst h
        exact hvisit id migrations s e1 hm (hanc id (by simp)) hv
      | ok s1 =>
        rw [hv] at h
        have hs1v : s1.visiting = s.visiting := ((dfs_ok_inv (fuel + 1)).1 _ _ _ _ hv).1.1
        refine ihl s1 e ?_ ?_ h
        · rw [hs1v]; exact hm
        · intro i hi x hx
          rw [hs1v] at hx
          exact hanc i (List.mem_cons_of_mem _ hi) x hx

/-- Two mutually dependent migrations can never both be marked visited by a
successful visit: completing either one would require first completing the
other inside it. -/
theorem dfs_no_complete (a b : String) (migrations : List (String × Migration))
    (ma mb : Migration) (hla : migrations.lookup a = some ma)
    (hab : b ∈ ma.dependencies.getD []) (hlb : migrations.lookup b = some mb)
    (hba : a ∈ mb.dependencies.getD []) (fuel : Nat) :
    (∀ (id : String) (s s' : DfsState),
      visit_migration_deps fuel id migrations s = .ok s' →
      a ∉ s.visited → b ∉ s.visited → a ∉ s'.visited ∧ b ∉ s'.visited) ∧
    (∀ (ids : List String) (s s' : DfsState),
      visit_list fuel ids migrations s = .ok s' →
      a ∉ s.visited → b ∉ s.visited → a ∉ s'.visited ∧ b ∉ s'.visited) := by
  induction fuel with
  | zero =>
    constructor
    · intro id s s' h
      rw [visit_zero] at h
      exact absurd h (by simp)
    · intro ids
      induction ids with
      | nil =>
        intro s s' h ha hb
        rw [visit_list_nil] at h
        cases h
        exact ⟨ha, hb⟩
      | cons id rest ihl =>
        intro s s' h
        rw [visit_list_cons, visit_zero] at h
        exact absurd h (by simp)
  | succ fuel ih =>
    have hvisit : ∀ (id : String) (s s' : DfsState),
        visit_migration_deps (fuel + 1) id migrations s = .ok s' →
        a ∉ s.visited → b ∉ s.visited → a ∉ s'.visited ∧ b ∉ s'.visited := by
      intro id s s' h ha hb
      rw [visit_succ] at h
      by_cases h1 : id ∈ s.visited
      · rw [if_pos h1] at h
        cases h
        exact ⟨ha, hb⟩
      rw [if_neg h1] at h
      by_cases h2 : id ∈ s.visiting
      · rw [if_pos h2] at h
        exact absurd h (by simp)
      rw [if_neg h2] at h
      cases hloop : visit_list fuel (depsOf migrations id) migrations
          { s with visiting := id :: s.visiting } with
      | error e =>
        rw [hloop] at h
        exact absurd h (by simp)
      | ok s3 =>
        rw [hloop] at h
        cases h
        obtain ⟨ha3, hb3⟩ := ih.2 (depsOf migrations id) _ _ hloop ha hb
        have hdeps3 : ∀ i ∈ depsOf migrations id, i ∈ s3.visited :=
          ((dfs_ok_inv fuel).2 _ _ _ _ hloop).2
        by_cases hida : id = a
        · subst hida
          have : b ∈ depsOf migrations id := by
            unfold depsOf
            rw [hla]
            exact hab
          exact absurd (hdeps3 b this) hb3
        by_cases hidb : id = b
        · subst hidb
          have : a ∈ depsOf migrations id := by
            unfold depsOf
            rw [hlb]
            exact hba
          exact absurd (hdeps3 a this) ha3
        have hvisited : (completeState id s3).visited = id :: s3.visited ∨
            (completeState id s3).visited = s3.visited := by
          simp only [completeState]
          by_cases hmem : id ∈ s3.visited
          · exact .inr (by rw [if_pos hmem])
          · exact .inl (by rw [if_neg hmem])
        rcases hvisited with hv | hv <;> rw [hv]
        · constructor
          · intro hmem
            rcases List.mem_cons.mp hmem with rfl | hmem1
            · exact hida rfl
            · exact ha3 hmem1
          · intro hmem
            rcases List.mem_cons.mp hmem with rfl | hmem1
            · exact hidb rfl
            · exact hb3 hmem1
        · exact ⟨ha3, hb3⟩
    refine ⟨hvisit, ?_⟩
    intro ids
    induction ids with
    | nil =>
      intro s s' h ha hb
      rw [visit_list_nil] at h
      cases h
      exact ⟨ha, hb⟩
    | cons id rest ihl =>
      intro s s' h ha hb
      rw [visit_list_cons] at h
      cases hv : visit_migration_deps (fuel + 1) id migrations s with
      | error e =>
        rw [hv] at h
        exact absurd h (by simp)
      | ok s1 =>
        rw [hv] at h
        obtain ⟨ha1, hb1⟩ := hvisit id s s1 hv ha hb
        exact ihl s1 s' h ha1 hb1

/-! ### Resolver-level consequences -/

theorem keysNotVisiting_nil (migrations : List (String × Migration)) :
    keysNotVisiting migrations [] = migrations.length := by
  simp [keysNotVisiting]

/-- A ranking function that strictly decreases along dependency edges
witnesses acyclicity. -/
theorem acyclic_of_measure (migrations : List (String × Migration))
    (f : String → Nat)
    (h : ∀ x y, depEdge migrations x y → f y < f x) : Acyclic migrations := by
  intro id hcyc
  have hlt : ∀ x y, Relation.TransGen (depEdge migrations) x y → f y < f x := by
    intro x y hxy
    induction hxy with
    | single h1 => exact h _ _ h1
    | tail _ h1 ihp => exact lt_trans (h _ _ h1) ihp
  exact absurd (hlt id id hcyc) (lt_irrefl _)

/-- A minimal migration value used by concrete instances: only the id, the
dependency list and the down list vary. -/
def sampleMigration (id : String) (dependencies : Option (List String))
    (down : List MigrationOperation) : Migration :=
  { id := id, title := none, description := none, up := [], down := down,
    dependencies := dependencies }

/-- C1: for every acyclic dependency graph over the loaded migrations and
every (duplicate-free) pending set, `resolve_migration_dependencies` returns
an ordering of exactly the pending ids — a permutation of the pending set, so
a dependency edge to an already-applied migration is not itself emitted — in
which every pending migration appears after all of its pending
dependencies. -/
theorem resolve_acyclic_exact_order
    (pending : List String) (migrations : List (String × Migration))
    (hnd : pending.Nodup) (hacyc : Acyclic migrations) :
    ∃ out, resolve_migration_dependencies pending migrations = .ok out ∧
      out.Perm pending ∧
      ∀ x ∈ out, ∀ d ∈ depsOf migrations x, d ∈ pending →
        ∃ l₁ l₂, out = l₁ ++ x :: l₂ ∧ d ∈ l₁ := by
  obtain ⟨s', hok, -⟩ := (dfs_succeeds (migrations.length + 1)).2 pending migrations
    ⟨[], [], []⟩ hacyc
    (fun i _ y hy => absurd hy (List.not_mem_nil y))
    (by rw [keysNotVisiting_nil]; omega)
  obtain ⟨⟨-, -, -, -, hgs⟩, hvis⟩ := (dfs_ok_inv (migrations.length + 1)).2
    _ _ _ _ hok
  obtain ⟨hnodup, hiff, hord⟩ := hgs
    ⟨List.nodup_nil, fun x => by simp, fun x hx => absurd hx (List.not_mem_nil x)⟩
  refine ⟨s'.resolved.filter (fun id => pending.contains id), ?_, ?_, ?_⟩
  · unfold resolve_migration_dependencies
    rw [hok]
  · rw [List.perm_ext_iff_of_nodup (hnodup.filter _) hnd]
    intro x
    constructor
    · intro hx
      have hx1 := List.mem_filter.mp hx
      simpa using hx1.2
    · intro hx
      exact List.mem_filter.mpr ⟨(hiff x).mpr (hvis x hx), by simpa using hx⟩
  · intro x hx d hd hdp
    have hx1 := List.mem_filter.mp hx
    obtain ⟨l₁, l₂, hsplit, hdl⟩ := hord x hx1.1 d hd
    refine ⟨l₁.filter (fun id => pending.contains id),
      l₂.filter (fun id => pending.contains id), ?_, ?_⟩
    · rw [hsplit, List.filter_append, List.filter_cons, if_pos hx1.2]
    · exact List.mem_filter.mpr ⟨hdl, by simpa using hdp⟩

/-- C8: a two-node mutual dependency (`a` depends on `b` and `b` depends on
`a`) with either node pending makes `resolve_migration_dependencies` fail
with the circular-dependency error naming an id that lies on a dependency
cycle. -/
theorem resolve_mutual_dependency_cycle_error
    (pending : List String) (migrations : List (String × Migration))
    (a b : String) (ma mb : Migration)
    (hla : migrations.lookup a = some ma) (hab : b ∈ ma.dependencies.getD [])
    (hlb : migrations.lookup b = some mb) (hba : a ∈ mb.dependencies.getD [])
    (hpend : a ∈ pending ∨ b ∈ pending) :
    ∃ x, resolve_migration_dependencies pending migrations =
      .error (cycle_error x) ∧ Relation.TransGen (depEdge migrations) x x := by
  cases hres : visit_list (migrations.length + 1) pending migrations ⟨[], [], []⟩ with
  | ok s' =>
    exfalso
    have hvis := ((dfs_ok_inv (migrations.length + 1)).2 _ _ _ _ hres).2
    have hnc := (dfs_no_complete a b migrations ma mb hla hab hlb hba
      (migrations.length + 1)).2 pending _ _ hres
      (by simp) (by simp)
    rcases hpend with hp | hp
    · exact hnc.1 (hvis a hp)
    · exact hnc.2 (hvis b hp)
  | error e =>
    obtain ⟨x, hx, hcyc⟩ := (dfs_error_shape (migrations.length + 1)).2 pending
      migrations _ e (by rw [keysNotVisiting_nil]; omega)
      (fun i _ y hy => absurd hy (List.not_mem_nil y)) hres
    subst hx
    refine ⟨x, ?_, hcyc⟩
    unfold resolve_migration_dependencies
    rw [hres]

theorem no_dep_edge_of_singleton_no_deps :
    ∀ x y, depEdge [("m0", sampleMigration "m0" none [])] x y → False := by
  intro x y hxy
  unfold depEdge depsOf at hxy
  rw [List.lookup] at hxy
  cases hbeq : (x == "m0") <;> rw [hbeq] at hxy
  · simp [List.lookup] at hxy
  · simp [sampleMigration] at hxy

/-- Witness for C1 at a concrete acyclic one-migration map. -/
theorem resolve_acyclic_exact_order_witness :
    (["m0"] : List String).Nodup ∧
    Acyclic [("m0", sampleMigration "m0" none [])] ∧
    ∃ out, resolve_migration_dependencies ["m0"]
        [("m0", sampleMigration "m0" none [])] = .ok out ∧
      out.Perm ["m0"] ∧
      ∀ x ∈ out, ∀ d ∈ depsOf [("m0", sampleMigration "m0" none [])] x,
        d ∈ ["m0"] → ∃ l₁ l₂, out = l₁ ++ x :: l₂ ∧ d ∈ l₁ := by
  have hacyc : Acyclic [("m0", sampleMigration "m0" none [])] :=
    acyclic_of_measure _ (fun _ => 0)
      (fun x y h => (no_dep_edge_of_singleton_no_deps x y h).elim)
  exact ⟨by decide, hacyc,
    resolve_acyclic_exact_order ["m0"] _ (by decide) hacyc⟩

/-- Witness for C8 at a concrete two-migration mutual dependency. -/
theorem resolve_mutual_dependency_cycle_error_witness :
    (List.lookup "a" [("a", sampleMigration "a" (some ["b"]) []),
        ("b", sampleMigration "b" (some ["a"]) [])] =
      some (sampleMigration "a" (some ["b"]) [])) ∧
    ∃ x, resolve_migration_dependencies ["a"]
        [("a", sampleMigration "a" (some ["b"]) []),
         ("b", sampleMigration "b" (some ["a"]) [])] =
      .error (cycle_error x) ∧
      Relation.TransGen
        (depEdge [("a", sampleMigration "a" (some ["b"]) []),
                  ("b", sampleMigration "b" (some ["a"]) [])]) x x :=
  ⟨rfl,
   resolve_mutual_dependency_cycle_error ["a"] _ "a" "b" _ _ rfl
     (by simp [sampleMigration]) rfl (by simp [sampleMigration])
     (.inl (by simp))⟩

/-! ### Determinism of resolution relative to the map's iteration order -/

/-- The visitor reads the migration map only through each id's dependency
list. -/
theorem dfs_ignores_non_deps (fuel : Nat) :
    (∀ (id : String) (m1 m2 : List (String × Migration)) (s : DfsState),
      (∀ i, depsOf m1 i = depsOf m2 i) →
      visit_migration_deps fuel id m1 s = visit_migration_deps fuel id m2 s) ∧
    (∀ (ids : List String) (m1 m2 : List (String × Migration)) (s : DfsState),
      (∀ i, depsOf m1 i = depsOf m2 i) →
      visit_list fuel ids m1 s = visit_list fuel ids m2 s) := by
  induction fuel with
  | zero =>
    exact ⟨fun id m1 m2 s _ => by rw [visit_zero, visit_zero],
      fun ids m1 m2 s hdeps => by
        induction ids generalizing s with
        | nil => rw [visit_list_nil, visit_list_nil]
        | cons id rest ihl =>
          rw [visit_list_cons, visit_list_cons, visit_zero, visit_zero]⟩
  | succ fuel ih =>
    have hvisit : ∀ (id : String) (m1 m2 : List (String × Migration)) (s : DfsState),
        (∀ i, depsOf m1 i = depsOf m2 i) →
        visit_migration_deps (fuel + 1) id m1 s =
          visit_migration_deps (fuel + 1) id m2 s := by
      intro id m1 m2 s hdeps
      rw [visit_succ, visit_succ, hdeps id, ih.2 _ _ m2 _ hdeps]
    refine ⟨hvisit, ?_⟩
    intro ids m1 m2 s hdeps
    induction ids generalizing s with
    | nil => rw [visit_list_nil, visit_list_nil]
    | cons id rest ihl =>
      rw [visit_list_cons, visit_list_cons, hvisit id m1 m2 s hdeps]
      cases visit_migration_deps (fuel + 1) id m2 s with
      | error e => rfl
      | ok s1 => exact ihl s1

theorem depsOf_congr {m1 m2 : List (String × Migration)}
    (h : ∀ i, (m1.lookup i).map Migration.dependencies =
      (m2.lookup i).map Migration.dependencies) :
    ∀ i, depsOf m1 i = depsOf m2 i := by
  intro i
  unfold depsOf
  have hi := h i
  cases hl1 : m1.lookup i <;> cases hl2 : m2.lookup i <;> rw [hl1, hl2] at hi
  · exact absurd hi (by simp)
  · exact absurd hi (by simp)
  · simp only [Option.map_some', Option.some.injEq] at hi
    dsimp only
    rw [hi]

/-- C2 amended: the pending order is the map's key iteration order filtered
by the applied list, and resolution is a function of that key sequence and
the per-id dependency lists alone — two maps presented in the same iteration
order with the same dependency structure resolve identically. -/
theorem get_pending_deterministic_for_fixed_iteration_order
    (migrations1 migrations2 : List (String × Migration)) (state : MigrationState)
    (hkeys : migrations1.map Prod.fst = migrations2.map Prod.fst)
    (hdeps : ∀ i, (migrations1.lookup i).map Migration.dependencies =
      (migrations2.lookup i).map Migration.dependencies) :
    get_pending_migrations migrations1 state = get_pending_migrations migrations2 state := by
  have hlen : migrations1.length = migrations2.length := by
    have hcl := congrArg List.length hkeys
    simpa using hcl
  have hvl : ∀ (p : List String) (s : DfsState),
      visit_list (migrations2.length + 1) p migrations1 s =
        visit_list (migrations2.length + 1) p migrations2 s :=
    fun p s => (dfs_ignores_non_deps (migrations2.length + 1)).2 p _ _ s
      (depsOf_congr hdeps)
  simp only [get_pending_migrations, resolve_migration_dependencies]
  rw [hkeys, hlen, hvl]

/-- Witness for the amended C2: same key order and dependency structure but
different titles resolve identically. -/
theorem get_pending_deterministic_witness :
    (([("a", sampleMigration "a" none [])] : List (String × Migration)).map Prod.fst =
      ([("a", { sampleMigration "a" none [] with title := some "t" })] :
        List (String × Migration)).map Prod.fst) ∧
    get_pending_migrations [("a", sampleMigration "a" none [])]
        (MigrationState.defaultState "now") =
      get_pending_migrations
        [("a", { sampleMigration "a" none [] with title := some "t" })]
        (MigrationState.defaultState "now") := by
  refine ⟨rfl, get_pending_deterministic_for_fixed_iteration_order _ _ _ rfl ?_⟩
  intro i
  cases hbeq : (i == "a") <;> simp [List.lookup, hbeq, sampleMigration]

/-- C2 as stated is false: the same mapping presented in a different
iteration order (a permutation with duplicate-free keys) yields a different
output order for two migrations with no dependency relation. -/
theorem get_pending_order_not_stable_counterexample :
    ¬ (∀ (migrations1 migrations2 : List (String × Migration)) (state : MigrationState),
        (migrations1.map Prod.fst).Nodup → migrations1.Perm migrations2 →
        get_pending_migrations migrations1 state =
          get_pending_migrations migrations2 state) := by
  intro h
  have hperm : ([("a", sampleMigration "a" none []),
      ("b", sampleMigration "b" none [])] : List (String × Migration)).Perm
      [("b", sampleMigration "b" none []), ("a", sampleMigration "a" none [])] :=
    List.Perm.swap _ _ _
  have h1 := h _ _ (MigrationState.defaultState "now") (by decide) hperm
  have h2 : get_pending_migrations
      [("a", sampleMigration "a" none []), ("b", sampleMigration "b" none [])]
      (MigrationState.defaultState "now") = .ok ["a", "b"] := rfl
  have h3 : get_pending_migrations
      [("b", sampleMigration "b" none []), ("a", sampleMigration "a" none [])]
      (MigrationState.defaultState "now") = .ok ["b", "a"] := rfl
  rw [h2, h3] at h1
  injection h1 with h4
  exact absurd h4 (by decide)

/-! ### Properties of `findSplit` -/

theorem findSplit_some {p : α → Bool} :
    ∀ {l pre : List α} {x : α} {post : List α},
    findSplit p l = some (pre, x, post) →
    l = pre ++ x :: post ∧ p x = true := by
  intro l
  induction l with
  | nil => intro pre x post h; simp [findSplit] at h
  | cons y ys ihl =>
    intro pre x post h
    rw [findSplit] at h
    by_cases hp : p y
    · rw [if_pos hp] at h
      simp only [Option.some.injEq, Prod.mk.injEq] at h
      obtain ⟨rfl, rfl, rfl⟩ := h
      exact ⟨rfl, hp⟩
    · rw [if_neg hp] at h
      cases hfs : findSplit p ys with
      | none => rw [hfs] at h; simp at h
      | some t =>
        obtain ⟨t1, t2, t3⟩ := t
        rw [hfs] at h
        simp only [Option.map_some', Option.some.injEq, Prod.mk.injEq] at h
        obtain ⟨rfl, rfl, rfl⟩ := h
        obtain ⟨hsplit, hpx⟩ := ihl hfs
        exact ⟨by rw [hsplit]; rfl, hpx⟩

theorem findSplit_none {p : α → Bool} :
    ∀ {l : List α}, findSplit p l = none → ∀ x ∈ l, p x = false := by
  intro l
  induction l with
  | nil => intro h x hx; simp at hx
  | cons y ys ihl =>
    intro h x hx
    rw [findSplit] at h
    by_cases hp : p y
    · rw [if_pos hp] at h; simp at h
    · rw [if_neg hp] at h
      rcases List.mem_cons.mp hx with rfl | hx1
      · exact Bool.eq_false_iff.mpr hp
      · exact ihl (Option.map_eq_none'.mp h) x hx1

theorem findSplit_eq_none {p : α → Bool} :
    ∀ {l : List α}, (∀ x ∈ l, p x = false) → findSplit p l = none := by
  intro l
  induction l with
  | nil => intro _; rfl
  | cons y ys ihl =>
    intro h
    rw [findSplit]
    rw [if_neg (by rw [h y (by simp)]; simp)]
    rw [ihl (fun x hx => h x (List.mem_cons_of_mem _ hx))]
    rfl

/-! ### C3: the operation set and what execution can touch -/

/-- C3 supporting theorem: executing any operation of the closed seven-variant
`MigrationOperation` enum never changes the number of entities, never changes
the number of actions, and never touches the constraints collection at all —
so no variant behaves as an AddEntity/RemoveEntity, AddAction/RemoveAction,
or AddConstraint/RemoveConstraint append or remove-by-id. -/
theorem execute_operation_never_edits_entity_action_constraint_sets
    (operation : MigrationOperation) (document document1 : FdmlDocument)
    (h : execute_operation operation document = .ok document1) :
    document1.entities.length = document.entities.length ∧
    document1.actions.length = document.actions.length ∧
    document1.constraints = document.constraints := by
  cases operation with
  | addFeature id title description scenarios =>
    simp only [execute_operation, Except.ok.injEq] at h
    subst h
    exact ⟨rfl, rfl, rfl⟩
  | removeFeature id =>
    simp only [execute_operation, Except.ok.injEq] at h
    subst h
    exact ⟨rfl, rfl, rfl⟩
  | modifyEntity id changes =>
    simp only [execute_operation] at h
    cases hfs : findSplit (fun e => e.id == id) document.entities with
    | none => rw [hfs] at h; exact absurd h (by simp)
    | some t =>
      obtain ⟨pre, entity, post⟩ := t
      rw [hfs] at h
      simp only [Except.ok.injEq] at h
      subst h
      obtain ⟨hsplit, -⟩ := findSplit_some hfs
      refine ⟨?_, rfl, rfl⟩
      rw [hsplit]
      simp
  | addField entity_id field_name field_type required dflt =>
    simp only [execute_operation] at h
    cases hfs : findSplit (fun e => e.id == entity_id) document.entities with
    | none => rw [hfs] at h; exact absurd h (by simp)
    | some t =>
      obtain ⟨pre, entity, post⟩ := t
      rw [hfs] at h
      simp only [Except.ok.injEq] at h
      subst h
      obtain ⟨hsplit, -⟩ := findSplit_some hfs
      refine ⟨?_, rfl, rfl⟩
      rw [hsplit]
      simp
  | removeField entity_id field_name =>
    simp only [execute_operation] at h
    cases hfs : findSplit (fun e => e.id == entity_id) document.entities with
    | none => rw [hfs] at h; exact absurd h (by simp)
    | some t =>
      obtain ⟨pre, entity, post⟩ := t
      rw [hfs] at h
      dsimp only at h
      by_cases hlen : (entity.fields.filter
          (fun f => f.name != field_name)).length == entity.fields.length
      · rw [if_pos hlen] at h
        exact absurd h (by simp)
      · rw [if_neg hlen] at h
        simp only [Except.ok.injEq] at h
        subst h
        obtain ⟨hsplit, -⟩ := findSplit_some hfs
        refine ⟨?_, rfl, rfl⟩
        rw [hsplit]
        simp
  | updateAction id changes =>
    simp only [execute_operation] at h
    cases hfs : findSplit (fun a => a.id == id) document.actions with
    | none => rw [hfs] at h; exact absurd h (by simp)
    | some t =>
      obtain ⟨pre, action, post⟩ := t
      rw [hfs] at h
      simp only [Except.ok.injEq] at h
      subst h
      obtain ⟨hsplit, -⟩ := findSplit_some hfs
      refine ⟨rfl, ?_, rfl⟩
      rw [hsplit]
      simp
  | changeValidation target_id target_type validation_rules =>
    simp only [execute_operation] at h
    split at h
    · cases hfind : document.entities.find? (fun e => e.id == target_id) with
      | none => rw [hfind] at h; exact absurd h (by simp)
      | some e1 =>
        rw [hfind] at h
        simp only [Except.ok.injEq] at h
        subst h
        exact ⟨rfl, rfl, rfl⟩
    · cases hfind : document.actions.find? (fun a => a.id == target_id) with
      | none => rw [hfind] at h; exact absurd h (by simp)
      | some a1 =>
        rw [hfind] at h
        simp only [Except.ok.injEq] at h
        subst h
        exact ⟨rfl, rfl, rfl⟩
    · exact absurd h (by simp)

/-- Witness for the C3 frame theorem at the empty default document. -/
theorem execute_operation_never_edits_witness :
    execute_operation (.removeFeature "f") FdmlDocument.defaultDoc =
      .ok FdmlDocument.defaultDoc ∧
    (FdmlDocument.defaultDoc.entities.length = FdmlDocument.defaultDoc.entities.length ∧
     FdmlDocument.defaultDoc.actions.length = FdmlDocument.defaultDoc.actions.length ∧
     FdmlDocument.defaultDoc.constraints = FdmlDocument.defaultDoc.constraints) :=
  ⟨rfl, execute_operation_never_edits_entity_action_constraint_sets
    (.removeFeature "f") FdmlDocument.defaultDoc FdmlDocument.defaultDoc rfl⟩

/-! ### Sample document pieces for concrete instances -/

/-- A sample field carrying only a name. -/
def sampleField (name : String) : Field :=
  { name := name, field_type := "string", description := none, required := none,
    default := none, constraints := none }

/-- A sample entity with the given id and fields. -/
def sampleEntity (id : String) (fields : List Field) : Entity :=
  { id := id, name := none, description := none, fields := fields,
    relationships := none }

/-- A sample feature with the given id. -/
def sampleFeature (id : String) : Feature :=
  { id := id, title := "t", description := none, scenarios := [],
    acceptance_criteria := none, dependencies := none }

/-- A sample action with the given id. -/
def sampleAction (id : String) : Action :=
  { id := id, name := none, description := none, input := none, output := none,
    side_effects := none, preconditions := none, postconditions := none }

/-- A sample document with one entity `user` holding one field `id`. -/
def sampleUserDoc : FdmlDocument :=
  { FdmlDocument.defaultDoc with entities := [sampleEntity "user" [sampleField "id"]] }

/-- A sample document with one entity `e` and one action `a`. -/
def sampleDocEA : FdmlDocument :=
  { FdmlDocument.defaultDoc with
    entities := [sampleEntity "e" [sampleField "id"]],
    actions := [sampleAction "a"] }

/-! ### C4: Remove* variants and absent targets -/

/-- C4 counterexample: `RemoveField`, a Remove* variant, does raise a
not-found error when the removal target is absent. -/
theorem remove_field_absent_raises_not_found :
    execute_operation (.removeField "user" "missing") sampleUserDoc =
      .error (.migration "Field 'missing' not found in entity 'user'") := rfl

/-- C4 amended: only `RemoveFeature` treats removal by id as idempotent —
it always succeeds, filtering features by id, and an absent id leaves the
document unchanged; `RemoveField` (the other Remove* variant) instead raises
not-found errors on an absent entity or field. -/
theorem remove_feature_idempotent (document : FdmlDocument) (id : String) :
    execute_operation (.removeFeature id) document =
      .ok { document with
            features := document.features.filter (fun f => f.id != id) } ∧
    ((∀ f ∈ document.features, f.id ≠ id) →
      execute_operation (.removeFeature id) document = .ok document) := by
  constructor
  · rfl
  · intro h
    have hfe : document.features.filter (fun f => f.id != id) = document.features := by
      apply List.filter_eq_self.mpr
      intro f hf
      simp only [bne_iff_ne, ne_eq, decide_eq_true_eq]
      exact h f hf
    simp only [execute_operation]
    rw [hfe]

/-- Witness for the amended C4 on a document with no feature of the removed
id. -/
theorem remove_feature_idempotent_witness :
    execute_operation (.removeFeature "f")
      { FdmlDocument.defaultDoc with features := [sampleFeature "g"] } =
      .ok { FdmlDocument.defaultDoc with features := [sampleFeature "g"] } :=
  (remove_feature_idempotent _ "f").2 (by
    intro f hf
    simp only [List.mem_singleton] at hf
    subst hf
    simp [sampleFeature])

/-! ### C5: the RemoveField contract -/

/-- C5: executing `RemoveField` fails with the entity-not-found error when no
entity has the id; when the first entity with the id exists it fails with the
field-not-found error when no field has the name (the code detects this by
comparing the field-collection size before and after filtering), and
otherwise removes exactly the fields of that name from that entity, leaving
the rest of the document unchanged. -/
theorem remove_field_contract (document : FdmlDocument)
    (entity_id field_name : String) :
    ((∀ e ∈ document.entities, e.id ≠ entity_id) →
      execute_operation (.removeField entity_id field_name) document =
        .error (.migration ("Entity '" ++ entity_id ++ "' not found"))) ∧
    (∀ pre entity post,
      findSplit (fun e => e.id == entity_id) document.entities =
        some (pre, entity, post) →
      ((∀ f ∈ entity.fields, f.name ≠ field_name) →
        execute_operation (.removeField entity_id field_name) document =
          .error (.migration ("Field '" ++ field_name ++ "' not found in entity '"
            ++ entity_id ++ "'"))) ∧
      ((∃ f ∈ entity.fields, f.name = field_name) →
        execute_operation (.removeField entity_id field_name) document =
          .ok { document with entities :=
            pre ++ { entity with
              fields := entity.fields.filter (fun f => f.name != field_name) } :: post } ∧
        (entity.fields.filter (fun f => f.name != field_name)).length <
          entity.fields.length ∧
        ∀ g ∈ entity.fields.filter (fun f => f.name != field_name),
          g.name ≠ field_name)) := by
  constructor
  · intro hno
    have hfs : findSplit (fun e => e.id == entity_id) document.entities = none := by
      apply findSplit_eq_none
      intro e he
      simp only [beq_eq_false_iff_ne, ne_eq]
      exact hno e he
    simp only [execute_operation]
    rw [hfs]
  · intro pre entity post hfs
    constructor
    · intro hno
      have hkeep : entity.fields.filter (fun f => f.name != field_name) =
          entity.fields := by
        apply List.filter_eq_self.mpr
        intro f hf
        simp only [bne_iff_ne, ne_eq, decide_eq_true_eq]
        exact hno f hf
      simp only [execute_operation]
      rw [hfs]
      dsimp only
      rw [if_pos (by rw [hkeep]; simp)]
    · intro hyes
      have hlt : (entity.fields.filter (fun f => f.name != field_name)).length <
          entity.fields.length := by
        rw [List.length_filter_lt_length_iff_exists]
        obtain ⟨f, hf, hfn⟩ := hyes
        exact ⟨f, hf, by simp [hfn]⟩
      refine ⟨?_, hlt, ?_⟩
      · simp only [execute_operation]
        rw [hfs]
        dsimp only
        rw [if_neg (by
          simp only [beq_iff_eq]
          exact Nat.ne_of_lt hlt)]
      · intro g hg
        have := List.of_mem_filter hg
        simpa using this

/-- Witness for C5 at concrete documents exercising all three branches. -/
theorem remove_field_contract_witness :
    (execute_operation (.removeField "user" "age") FdmlDocument.defaultDoc =
      .error (.migration "Entity 'user' not found")) ∧
    (execute_operation (.removeField "user" "age") sampleUserDoc =
      .error (.migration "Field 'age' not found in entity 'user'")) ∧
    (execute_operation (.removeField "user" "id") sampleUserDoc =
      .ok { sampleUserDoc with
            entities := [] ++ { sampleEntity "user" [sampleField "id"] with
              fields := (sampleEntity "user" [sampleField "id"]).fields.filter
                (fun f => f.name != "id") } :: [] }) := by
  refine ⟨?_, ?_, ?_⟩
  · exact (remove_field_contract FdmlDocument.defaultDoc "user" "age").1
      (by intro e he; simp [FdmlDocument.defaultDoc] at he)
  · exact ((remove_field_contract sampleUserDoc "user" "age").2 []
      (sampleEntity "user" [sampleField "id"]) [] rfl).1
      (by intro f hf
          simp only [sampleEntity, List.mem_singleton] at hf
          subst hf
          simp [sampleField])
  · exact (((remove_field_contract sampleUserDoc "user" "id").2 []
      (sampleEntity "user" [sampleField "id"]) [] rfl).2
      ⟨sampleField "id", by simp [sampleEntity], rfl⟩).1

/-! ### C9: AddFeature appends unconditionally -/

/-- The feature value synthesized by the `AddFeature` arm, including its
placeholder scenarios. -/
def synthesized_feature (id title : String) (description : Option String)
    (scenarios : Option (List String)) : Feature :=
  { id := id, title := title, description := description,
    scenarios := (scenarios.map (fun s =>
      s.enum.map (fun it =>
        ({ id := id ++ "_scenario_" ++ toString (it.1 + 1),
           title := it.2,
           description := none,
           given := ["System is ready"],
           when_ := ["User performs action"],
           then_ := ["Expected outcome occurs"] } : Scenario)))).getD [],
    acceptance_criteria := none, dependencies := none }

theorem execute_add_feature (document : FdmlDocument) (id title : String)
    (description : Option String) (scenarios : Option (List String)) :
    execute_operation (.addFeature id title description scenarios) document =
      .ok { document with features :=
        document.features ++ [synthesized_feature id title description scenarios] } := rfl

/-- C9: executing `AddFeature` always succeeds and appends exactly one
feature carrying the given id — there is no uniqueness check — so on a
document that already contains a feature with that id, the result holds at
least two features with that id. -/
theorem add_feature_appends_unconditionally (document : FdmlDocument)
    (id title : String) (description : Option String)
    (scenarios : Option (List String)) :
    ∃ document1,
      execute_operation (.addFeature id title description scenarios) document =
        .ok document1 ∧
      document1.features.countP (fun f => f.id == id) =
        document.features.countP (fun f => f.id == id) + 1 ∧
      document1.features.length = document.features.length + 1 ∧
      ((∃ f ∈ document.features, f.id = id) →
        2 ≤ document1.features.countP (fun f => f.id == id)) := by
  have hc : (document.features ++ [synthesized_feature id title description
      scenarios]).countP (fun f => f.id == id) =
      document.features.countP (fun f => f.id == id) + 1 := by
    rw [List.countP_append]
    have hone : ([synthesized_feature id title description scenarios] :
        List Feature).countP (fun f => f.id == id) = 1 := by
      rw [List.countP_cons, List.countP_nil]
      rw [if_pos (by rw [show (synthesized_feature id title description
        scenarios).id = id from rfl]; exact beq_self_eq_true id)]
    rw [hone]
  refine ⟨_, execute_add_feature document id title description scenarios,
    hc, by simp, ?_⟩
  intro hex
  have hpos : 0 < document.features.countP (fun f => f.id == id) := by
    rw [List.countP_pos_iff]
    obtain ⟨f, hf, hfid⟩ := hex
    exact ⟨f, hf, by simp [hfid]⟩
  rw [hc]
  omega

/-- Witness for C9: adding feature id `x` to a document that already has a
feature `x` yields two features with id `x`. -/
theorem add_feature_appends_unconditionally_witness :
    ∃ document1,
      execute_operation (.addFeature "x" "t2" none none)
        { FdmlDocument.defaultDoc with features := [sampleFeature "x"] } =
        .ok document1 ∧
      2 ≤ document1.features.countP (fun f => f.id == "x") := by
  obtain ⟨document1, hok, -, -, himp⟩ := add_feature_appends_unconditionally
    { FdmlDocument.defaultDoc with features := [sampleFeature "x"] }
    "x" "t2" none none
  exact ⟨document1, hok, himp ⟨sampleFeature "x", by simp, rfl⟩⟩

/-! ### C10: ModifyEntity and UpdateAction apply only name and description -/

/-- C10: `ModifyEntity` reads only the `name` and `description` members of
its changes — the `add_fields`/`remove_fields` members never influence the
result and the field lists of all entities are unchanged — and likewise
`UpdateAction` ignores `input_changes`/`output_changes` and leaves every
other attribute of every action unchanged. -/
theorem modify_entity_update_action_name_description_only (document : FdmlDocument)
    (id : String) (name description : Option String)
    (af rf af' rf' : Option (List String))
    (ic oc ic' oc' : Option (List (String × String))) :
    execute_operation (.modifyEntity id ⟨name, description, af, rf⟩) document =
      execute_operation (.modifyEntity id ⟨name, description, af', rf'⟩) document ∧
    (∀ document1,
      execute_operation (.modifyEntity id ⟨name, description, af, rf⟩) document =
        .ok document1 →
      document1.entities.map Entity.fields = document.entities.map Entity.fields ∧
      document1.actions = document.actions ∧
      document1.features = document.features) ∧
    execute_operation (.updateAction id ⟨name, description, ic, oc⟩) document =
      execute_operation (.updateAction id ⟨name, description, ic', oc'⟩) document ∧
    (∀ document1,
      execute_operation (.updateAction id ⟨name, description, ic, oc⟩) document =
        .ok document1 →
      document1.actions.map
          (fun a => (a.id, a.input, a.output, a.side_effects, a.preconditions,
            a.postconditions)) =
        document.actions.map
          (fun a => (a.id, a.input, a.output, a.side_effects, a.preconditions,
            a.postconditions)) ∧
      document1.entities = document.entities ∧
      document1.features = document.features) := by
  refine ⟨rfl, ?_, rfl, ?_⟩
  · intro document1 h
    simp only [execute_operation] at h
    cases hfs : findSplit (fun e => e.id == id) document.entities with
    | none => rw [hfs] at h; exact absurd h (by simp)
    | some t =>
      obtain ⟨pre, entity, post⟩ := t
      rw [hfs] at h
      simp only [Except.ok.injEq] at h
      subst h
      obtain ⟨hsplit, -⟩ := findSplit_some hfs
      refine ⟨?_, rfl, rfl⟩
      rw [hsplit]
      cases name <;> cases description <;> simp
  · intro document1 h
    simp only [execute_operation] at h
    cases hfs : findSplit (fun a => a.id == id) document.actions with
    | none => rw [hfs] at h; exact absurd h (by simp)
    | some t =>
      obtain ⟨pre, action, post⟩ := t
      rw [hfs] at h
      simp only [Except.ok.injEq] at h
      subst h
      obtain ⟨hsplit, -⟩ := findSplit_some hfs
      refine ⟨?_, rfl, rfl⟩
      rw [hsplit]
      cases name <;> cases description <;> simp

/-- Witness for C10 at a concrete document with one entity and one action. -/
theorem modify_entity_update_action_name_description_only_witness :
    (execute_operation (.modifyEntity "e" ⟨some "N", none, some ["x"], none⟩)
        sampleDocEA =
      execute_operation (.modifyEntity "e" ⟨some "N", none, none, some ["y"]⟩)
        sampleDocEA) ∧
    (∃ document1,
      execute_operation (.modifyEntity "e" ⟨some "N", none, some ["x"], none⟩)
        sampleDocEA = .ok document1 ∧
      document1.entities.map Entity.fields =
        sampleDocEA.entities.map Entity.fields) := by
  constructor
  · exact (modify_entity_update_action_name_description_only sampleDocEA "e" (some "N")
      none (some ["x"]) none none (some ["y"]) none none none none).1
  · obtain ⟨hfields, -, -⟩ :=
      (modify_entity_update_action_name_description_only sampleDocEA "e" (some "N")
        none (some ["x"]) none none (some ["y"]) none none none none).2.1 _ rfl
    exact ⟨_, rfl, hfields⟩

/-! ### C7: the state-store mutators -/

theorem append_if_new_spec (ids : List String) :
    ∀ start : List String,
    (∀ x, x ∈ ids.foldl (fun acc migration_id =>
        if acc.contains migration_id then acc else acc ++ [migration_id]) start ↔
      x ∈ start ∨ x ∈ ids) ∧
    (∃ t, ids.foldl (fun acc migration_id =>
        if acc.contains migration_id then acc else acc ++ [migration_id]) start =
      start ++ t) ∧
    (start.Nodup → (ids.foldl (fun acc migration_id =>
        if acc.contains migration_id then acc else acc ++ [migration_id]) start).Nodup) ∧
    ((∀ i ∈ ids, i ∉ start) → ids.Nodup →
      ids.foldl (fun acc migration_id =>
        if acc.contains migration_id then acc else acc ++ [migration_id]) start =
      start ++ ids) := by
  induction ids with
  | nil =>
    intro start
    exact ⟨fun x => by simp, ⟨[], by simp⟩, fun h => h, fun _ _ => by simp⟩
  | cons id rest ihl =>
    intro start
    simp only [List.foldl_cons]
    by_cases hc : start.contains id
    · rw [if_pos hc]
      have hidmem : id ∈ start := by simpa using hc
      obtain ⟨hmem, hpre, hnd, hnew⟩ := ihl start
      refine ⟨?_, hpre, hnd, ?_⟩
      · intro x
        rw [hmem x]
        simp only [List.mem_cons]
        constructor
        · rintro (hx | hx)
          · exact .inl hx
          · exact .inr (.inr hx)
        · rintro (hx | rfl | hx)
          · exact .inl hx
          · exact .inl hidmem
          · exact .inr hx
      · intro hall _
        exact absurd hidmem (hall id (by simp))
    · rw [if_neg hc]
      have hidnot : id ∉ start := by simpa using hc
      obtain ⟨hmem, ⟨t, hpre⟩, hnd, hnew⟩ := ihl (start ++ [id])
      refine ⟨?_, ⟨[id] ++ t, by rw [hpre, List.append_assoc]⟩, ?_, ?_⟩
      · intro x
        rw [hmem x]
        simp only [List.mem_append, List.mem_singleton, List.mem_cons]
        tauto
      · intro hndstart
        apply hnd
        refine List.Nodup.append hndstart (by simp) ?_
        intro a ha hb
        simp only [List.mem_singleton] at hb
        subst hb
        exact hidnot ha
      · intro hall hndids
        rw [List.nodup_cons] at hndids
        rw [hnew ?_ hndids.2, List.append_assoc]
        · rfl
        · intro i hi
          simp only [List.mem_append, List.mem_singleton]
          rintro (hmem1 | rfl)
          · exact hall i (List.mem_cons_of_mem _ hi) hmem1
          · exact hndids.1 hi

theorem remove_by_value_spec (ids : List String) :
    ∀ start : List String,
    ids.foldl (fun acc migration_id => acc.filter (fun id => id != migration_id)) start =
      start.filter (fun x => !(ids.contains x)) := by
  induction ids with
  | nil =>
    intro start
    simp
  | cons id rest ihl =>
    intro start
    simp only [List.foldl_cons]
    rw [ihl (start.filter (fun x => x != id))]
    rw [List.filter_filter]
    apply List.filter_congr
    intro x _
    simp only [List.contains_cons, bne]
    cases x == id <;> cases rest.contains x <;> rfl

/-- A file system whose state file already records ids `a` and `b`. -/
def c7fs : FS :=
  { migration_files := [],
    state_file := some
      { applied_migrations := ["a", "b"], last_migration := some "b",
        created_at := "c0", updated_at := "u0" },
    target_file := none, backups := [] }

/-- C7 counterexample: `update_state` sets `lastApplied` from the tail of its
*argument*, not of the resulting applied list — recording an id that is
already present leaves the list unchanged but rewrites `lastApplied` to that
id, so `lastApplied` need not be the last element of the applied list. -/
theorem update_state_last_counterexample :
    ¬ (∀ (now : String) (ids : List String) (fs : FS) (state1 : MigrationState),
        (update_state now ids fs).state_file = some state1 →
        state1.last_migration = state1.applied_migrations.getLast?) := by
  intro h
  have h1 := h "t" ["a"] c7fs
    { applied_migrations := ["a", "b"], last_migration := some "a",
      created_at := "c0", updated_at := "t" } rfl
  exact absurd h1 (by decide)

/-- C7 amended: `recordApplied` appends each id only when absent (idempotent)
and `recordRolledBack` removes ids by value; after `recordRolledBack`,
`lastApplied` is the tail of the resulting applied list, but after
`recordApplied` it is the tail of the ids *argument* — which coincides with
the tail of the resulting list when the recorded ids were all new (the
runner's usage), but not in general. -/
theorem state_mutators_contract (now : String) (applied rolled_back : List String)
    (fs : FS) :
    (∃ state1, (update_state now applied fs).state_file = some state1 ∧
      (∀ x, x ∈ state1.applied_migrations ↔
        x ∈ (load_state now fs).applied_migrations ∨ x ∈ applied) ∧
      (∃ t, state1.applied_migrations =
        (load_state now fs).applied_migrations ++ t) ∧
      ((load_state now fs).applied_migrations.Nodup →
        state1.applied_migrations.Nodup) ∧
      state1.last_migration = applied.getLast? ∧
      (applied ≠ [] →
        (∀ i ∈ applied, i ∉ (load_state now fs).applied_migrations) →
        applied.Nodup →
        state1.applied_migrations =
          (load_state now fs).applied_migrations ++ applied ∧
        state1.last_migration = state1.applied_migrations.getLast?)) ∧
    (∃ state2, (remove_from_state now rolled_back fs).state_file = some state2 ∧
      state2.applied_migrations = (load_state now fs).applied_migrations.filter
        (fun x => !(rolled_back.contains x)) ∧
      state2.last_migration = state2.applied_migrations.getLast?) := by
  constructor
  · obtain ⟨hmem, hpre, hnd, hnew⟩ :=
      append_if_new_spec applied (load_state now fs).applied_migrations
    refine ⟨_, rfl, hmem, hpre, hnd, rfl, ?_⟩
    intro hne hall hndids
    have hform := hnew hall hndids
    refine ⟨hform, ?_⟩
    show applied.getLast? = _
    simp only [hform]
    cases applied with
    | nil => exact absurd rfl hne
    | cons a rest =>
      rw [List.getLast?_append_cons]
  · exact ⟨_, rfl, remove_by_value_spec rolled_back _, rfl⟩

/-- Witness for the amended C7 at a concrete state file. -/
theorem state_mutators_contract_witness :
    (∃ state1, (update_state "t" ["c"] c7fs).state_file = some state1 ∧
      state1.applied_migrations =
        (load_state "t" c7fs).applied_migrations ++ ["c"] ∧
      state1.last_migration = state1.applied_migrations.getLast?) ∧
    (∃ state2, (remove_from_state "t" ["a"] c7fs).state_file = some state2 ∧
      state2.applied_migrations = (load_state "t" c7fs).applied_migrations.filter
        (fun x => !((["a"] : List String).contains x)) ∧
      state2.last_migration = state2.applied_migrations.getLast?) := by
  obtain ⟨⟨state1, hs1, -, -, -, -, hnew⟩, ⟨state2, hs2, happ, hlast2⟩⟩ :=
    state_mutators_contract "t" ["c"] ["a"] c7fs
  obtain ⟨hform, hlast1⟩ := hnew (by simp) (by decide) (by decide)
  exact ⟨⟨state1, hs1, hform, hlast1⟩, ⟨state2, hs2, happ, hlast2⟩⟩

/-! ### C6: rollback of a migration with empty `down` has no side effects -/

theorem validate_ops_all_ok :
    ∀ {ops : List MigrationOperation},
    (∀ op ∈ ops, validate_operation op = .ok ()) → validate_ops ops = .ok () := by
  intro ops h
  induction ops with
  | nil => rfl
  | cons op rest ihl =>
    show (match validate_operation op with
      | Except.error e => Except.error e
      | Except.ok _ => validate_ops rest) = Except.ok ()
    rw [h op (by simp)]
    exact ihl (fun op1 h1 => h op1 (List.mem_cons_of_mem _ h1))

/-- When every selected migration is present with only valid down operations,
and some selected migration has an empty `down`, the safety check fails with
the no-down error for the first such migration. -/
theorem verify_rollback_safety_first_empty_down
    (migration_map : List (String × Migration)) :
    ∀ (sel : List String),
    (∀ id ∈ sel, ∃ m, migration_map.lookup id = some m) →
    (∀ id m, id ∈ sel → migration_map.lookup id = some m →
      ∀ op ∈ m.down, validate_operation op = .ok ()) →
    (∃ id m, id ∈ sel ∧ migration_map.lookup id = some m ∧ m.down = []) →
    ∃ id1 m1, id1 ∈ sel ∧ migration_map.lookup id1 = some m1 ∧ m1.down = [] ∧
      verify_rollback_safety migration_map sel =
        .error (.migration ("Migration '" ++ id1 ++
          "' has no down operations - rollback not possible")) := by
  intro sel
  induction sel with
  | nil =>
    intro _ _ hempty
    obtain ⟨id, m, hid, -⟩ := hempty
    exact absurd hid (List.not_mem_nil id)
  | cons id rest ihl =>
    intro hpresent hvalid hempty
    obtain ⟨m, hm⟩ := hpresent id (by simp)
    by_cases hde : m.down.isEmpty
    · have hdown : m.down = [] := by
        cases hdm : m.down with
        | nil => rfl
        | cons o os => rw [hdm] at hde; simp at hde
      refine ⟨id, m, by simp, hm, hdown, ?_⟩
      show (match migration_map.lookup id with
        | some migration =>
          if migration.down.isEmpty then
            Except.error (FdmlError.migration ("Migration '" ++ id
              ++ "' has no down operations - rollback not possible"))
          else
            match validate_ops migration.down with
            | Except.error e => Except.error e
            | Except.ok _ => verify_rollback_safety migration_map rest
        | none => Except.error (FdmlError.migration
            ("Migration '" ++ id ++ "' not found"))) = _
      rw [hm]
      dsimp only
      rw [if_pos hde]
    · have hvops : validate_ops m.down = .ok () :=
        validate_ops_all_ok (hvalid id m (by simp) hm)
      have hrest : ∃ i mi, i ∈ rest ∧ migration_map.lookup i = some mi ∧
          mi.down = [] := by
        obtain ⟨i, mi, hi, hmi, hdi⟩ := hempty
        rcases List.mem_cons.mp hi with rfl | hi1
        · rw [hm] at hmi
          obtain rfl := Option.some.inj hmi
          rw [hdi] at hde
          exact absurd rfl hde
        · exact ⟨i, mi, hi1, hmi, hdi⟩
      obtain ⟨id1, m1, hid1, hm1, hd1, hver⟩ := ihl
        (fun i hi => hpresent i (List.mem_cons_of_mem _ hi))
        (fun i mi hi hmi => hvalid i mi (List.mem_cons_of_mem _ hi) hmi)
        hrest
      refine ⟨id1, m1, List.mem_cons_of_mem _ hid1, hm1, hd1, ?_⟩
      show (match migration_map.lookup id with
        | some migration =>
          if migration.down.isEmpty then
            Except.error (FdmlError.migration ("Migration '" ++ id
              ++ "' has no down operations - rollback not possible"))
          else
            match validate_ops migration.down with
            | Except.error e => Except.error e
            | Except.ok _ => verify_rollback_safety migration_map rest
        | none => Except.error (FdmlError.migration
            ("Migration '" ++ id ++ "' not found"))) = _
      rw [hm]
      dsimp only
      rw [if_neg hde, hvops]
      exact hver

/-- C6: when every migration selected for rollback exists and has only valid
down operations but at least one of them has an empty `down`, the whole
rollback call fails with the no-down error before any side effect — the
returned file-system state is exactly the input state: no backup is written,
the target document file and the state file are unchanged. -/
theorem rollback_empty_down_fails_without_side_effects
    (now : String) (count : Nat) (fs : FS)
    (hpresent : ∀ id ∈ (load_state now fs).applied_migrations.reverse.take count,
      ∃ m, (load_migrations fs).lookup id = some m)
    (hvalid : ∀ id m,
      id ∈ (load_state now fs).applied_migrations.reverse.take count →
      (load_migrations fs).lookup id = some m →
      ∀ op ∈ m.down, validate_operation op = .ok ())
    (hempty : ∃ id m,
      id ∈ (load_state now fs).applied_migrations.reverse.take count ∧
      (load_migrations fs).lookup id = some m ∧ m.down = []) :
    ∃ id1 m1,
      id1 ∈ (load_state now fs).applied_migrations.reverse.take count ∧
      (load_migrations fs).lookup id1 = some m1 ∧ m1.down = [] ∧
      rollback_migrations now count false fs =
        (.error (.migration ("Migration '" ++ id1 ++
          "' has no down operations - rollback not possible")), fs) := by
  obtain ⟨id1, m1, hid1, hm1, hd1, hver⟩ := verify_rollback_safety_first_empty_down
    (load_migrations fs) _ hpresent hvalid hempty
  refine ⟨id1, m1, hid1, hm1, hd1, ?_⟩
  have hne : (load_state now fs).applied_migrations.reverse.take count ≠ [] :=
    List.ne_nil_of_mem hid1
  have hie : ((load_state now fs).applied_migrations.reverse.take count).isEmpty
      = false := by
    cases hsel : (load_state now fs).applied_migrations.reverse.take count with
    | nil => exact absurd hsel hne
    | cons a t => rfl
  simp only [rollback_migrations]
  rw [if_neg (by rw [hie]; simp), hver]

/-- A file system holding one applied migration whose `down` is empty. -/
def sampleRollbackFS : FS :=
  { migration_files := [sampleMigration "m1" none []],
    state_file := some
      { applied_migrations := ["m1"], last_migration := some "m1",
        created_at := "c", updated_at := "u" },
    target_file := some FdmlDocument.defaultDoc,
    backups := [] }

/-- Witness for C6 at a concrete file system. -/
theorem rollback_empty_down_fails_witness :
    ∃ id1 m1,
      id1 ∈ (load_state "t" sampleRollbackFS).applied_migrations.reverse.take 1 ∧
      (load_migrations sampleRollbackFS).lookup id1 = some m1 ∧ m1.down = [] ∧
      rollback_migrations "t" 1 false sampleRollbackFS =
        (.error (.migration ("Migration '" ++ id1 ++
          "' has no down operations - rollback not possible")),
         sampleRollbackFS) := by
  apply rollback_empty_down_fails_without_side_effects
  · intro id hid
    have hid1 : id ∈ (["m1"] : List String) := hid
    simp only [List.mem_singleton] at hid1
    subst hid1
    exact ⟨sampleMigration "m1" none [], rfl⟩
  · intro id m hid hm op hop
    have hid1 : id ∈ (["m1"] : List String) := hid
    simp only [List.mem_singleton] at hid1
    subst hid1
    have hm1 : sampleMigration "m1" none [] = m := Option.some.inj hm
    rw [← hm1] at hop
    exact absurd hop (by simp [sampleMigration])
  · refine ⟨"m1", sampleMigration "m1" none [], ?_, rfl, rfl⟩
    show "m1" ∈ (["m1"] : List String)
    simp

end FDML
